import Mathlib

/-!
Shallow embedding of the airplane boarding simulation (src/final.py) and
verification of the specification claims about it.

The embedding is a direct state-passing translation of the Python source:
pure helpers become Lean functions; the in-place mutations that
`Passenger.propose_action`, `Simulation.do_substep` and
`Simulation.update_in_parallel` perform are made explicit by returning the
updated `Plane` / passenger list.  Integer grid rows are `Int` (the queue
row is `-1`); columns, counters and bag counts are `Nat`, matching the
nonnegative values the program manipulates.  Python's identity-based
`passed_occupants` set is represented by the (unique) `queue_index` of the
occupant, and dict/set lookups become list membership tests.
-/

def COLS : Nat := 7

def AISLE_COL : Nat := 3

def OVERHEAD_BIN_CAPACITY : Nat := 2

def MAX_BAGS : Nat := 3

def TICKS_FOR_OVERHEAD : Nat := 2

def ENTRANCE_ROW : Int := -1

/-- Lifecycle states of a passenger, exactly the string states of final.py. -/
inductive PState where
  | queue
  | walking
  | stowing
  | looking_bin
  | move_to_seat
  | done
deriving DecidableEq, Repr

/-- `letter_to_col` from final.py: seat letters map to columns 0,1,2,4,5,6. -/
def letter_to_col (letter : Char) : Nat :=
  if letter = 'A' then 0
  else if letter = 'B' then 1
  else if letter = 'C' then 2
  else if letter = 'D' then 4
  else if letter = 'E' then 5
  else 6

/-- The `Passenger` object of final.py (identity plus mutable fields). -/
structure Passenger where
  seat_row : Nat
  seat_letter : Char
  bags_count : Nat
  overhead_bags : Nat
  x : Nat
  y : Int
  state : PState
  ticks_stowing : Nat
  delay_counter : Nat
  passed_occupants : List Nat
  target_col : Nat
  queue_index : Nat
  is_late : Bool
deriving DecidableEq, Repr

/-- `Passenger.__init__` from final.py. -/
def Passenger.make (seat_row : Nat) (seat_letter : Char) (bags_count : Nat)
    (queue_index : Nat) (is_late : Bool) : Passenger :=
  { seat_row := seat_row
    seat_letter := seat_letter
    bags_count := bags_count
    overhead_bags := bags_count - 1
    x := AISLE_COL
    y := ENTRANCE_ROW
    state := PState.queue
    ticks_stowing := 0
    delay_counter := 0
    passed_occupants := []
    target_col := letter_to_col seat_letter
    queue_index := queue_index
    is_late := is_late }

/-- The plan dict returned by `Passenger.propose_action`: the six mutable
fields a sub-step may apply to a passenger. -/
structure Plan where
  x : Nat
  y : Int
  state : PState
  ticks_stowing : Nat
  delay_counter : Nat
  passed_occupants : List Nat
deriving DecidableEq, Repr

/-- The initial plan: a copy of the passenger's current mutable fields
(final.py builds this dict at the top of `propose_action`, and
`do_substep` builds the same dict for a collision loser). -/
def plan_of (p : Passenger) : Plan :=
  { x := p.x
    y := p.y
    state := p.state
    ticks_stowing := p.ticks_stowing
    delay_counter := p.delay_counter
    passed_occupants := p.passed_occupants }

/-- The `Plane` object: row count and the per-row, per-column overhead
bag counts. -/
structure Plane where
  num_rows : Nat
  overhead : List (List Nat)
deriving DecidableEq, Repr

/-- `Plane.__init__`: all bins start empty. -/
def Plane.make (num_rows : Nat) : Plane :=
  { num_rows := num_rows
    overhead := List.replicate num_rows (List.replicate COLS 0) }

/-- Sum of the stored bags of a row over all non-aisle columns, as in
`Plane.can_stow_bag`. -/
def rowTotal (r : List Nat) : Nat :=
  (((List.range COLS).filter (fun c => c ≠ AISLE_COL)).map (fun c => r.getD c 0)).sum

/-- `Plane.can_stow_bag` from final.py. -/
def Plane.can_stow_bag (pl : Plane) (row : Nat) (bags_needed : Nat) : Bool :=
  rowTotal (pl.overhead.getD row []) + bags_needed ≤ 6 * OVERHEAD_BIN_CAPACITY

/-- The column loop of `Plane.place_bags_in_bin`: walk the columns `cs`
of the row, skip the aisle, fill each column up to
`OVERHEAD_BIN_CAPACITY`, and stop (`break`) once no bags are left.
Returns the updated row together with the bags that were never placed
(final.py silently discards that leftover). -/
def placeInRow : List Nat → List Nat → Nat → List Nat × Nat
  | [], row, bags_left => (row, bags_left)
  | c :: rest, row, bags_left =>
    if c = AISLE_COL then placeInRow rest row bags_left
    else
      let cur := row.getD c 0
      let can_add := OVERHEAD_BIN_CAPACITY - cur
      if can_add > 0 then
        let put_now := min can_add bags_left
        let row' := row.set c (cur + put_now)
        let bl' := bags_left - put_now
        if bl' = 0 then (row', bl')
        else placeInRow rest row' bl'
      else placeInRow rest row bags_left

/-- `Plane.place_bags_in_bin` from final.py (the in-place mutation of
`self.overhead[row]` is returned as a new plane).  Rows are indexed by
`Nat`; the simulation only stows at on-board rows `0 ≤ row < num_rows`. -/
def Plane.place_bags_in_bin (pl : Plane) (row : Nat) (bags : Nat) : Plane :=
  { pl with overhead := pl.overhead.set row (placeInRow (List.range COLS) (pl.overhead.getD row []) bags).1 }

/-- Apply a sequence of `place_bags_in_bin` calls (row, bags). -/
def applyCalls (pl : Plane) (calls : List (Nat × Nat)) : Plane :=
  calls.foldl (fun acc c => acc.place_bags_in_bin c.1 c.2) pl

/-- `find_passenger_at` from final.py: the first passenger of the list at
`(row, col)` that is not done, or that is done while `col` is the aisle
column; a done passenger at a non-aisle column is skipped. -/
def find_passenger_at (row : Int) (col : Nat) : List Passenger → Option Passenger
  | [] => none
  | p :: ps =>
    if p.y = row ∧ p.x = col then
      if p.state ≠ PState.done then some p
      else if col = AISLE_COL then some p
      else find_passenger_at row col ps
    else find_passenger_at row col ps

/-- `is_tile_occupied` from final.py. -/
def is_tile_occupied (row : Int) (col : Nat) (passengers : List Passenger) : Bool :=
  (find_passenger_at row col passengers).isSome

/-- `Passenger.propose_action` from final.py.  The result is the plan
dict together with the plane and the passenger's `overhead_bags` field
as they stand after the call: in the `stowing` branch the Python method
mutates both (it calls `plane.place_bags_in_bin` and zeroes
`self.overhead_bags` inside the proposal), so the embedding returns
them explicitly.  `leaving_map` is the list of cells whose occupant is
leaving (the dict holds only `True` values, so membership is lookup). -/
def Passenger.propose_action (self : Passenger) (plane : Plane)
    (passengers_in_aisle : List Passenger) (leaving_map : List (Int × Nat)) :
    Plan × Plane × Nat :=
  let plan0 := plan_of self
  match self.state with
  | PState.done => (plan0, plane, self.overhead_bags)
  | PState.queue =>
    if passengers_in_aisle.any (fun o => o.state = PState.queue ∧ o.queue_index < self.queue_index) then
      (plan0, plane, self.overhead_bags)
    else if is_tile_occupied 0 AISLE_COL passengers_in_aisle = false then
      ({ plan0 with y := 0, state := PState.walking }, plane, self.overhead_bags)
    else if leaving_map.contains ((0 : Int), AISLE_COL) then
      ({ plan0 with y := 0, state := PState.walking }, plane, self.overhead_bags)
    else (plan0, plane, self.overhead_bags)
  | PState.walking =>
    if self.y < (self.seat_row : Int) then
      let next_y := self.y + 1
      match find_passenger_at next_y AISLE_COL passengers_in_aisle with
      | none => ({ plan0 with y := next_y }, plane, self.overhead_bags)
      | some _ =>
        if leaving_map.contains (next_y, AISLE_COL) then
          ({ plan0 with y := next_y }, plane, self.overhead_bags)
        else (plan0, plane, self.overhead_bags)
    else
      if self.overhead_bags > 0 then
        if plane.can_stow_bag self.y.toNat self.overhead_bags then
          ({ plan0 with state := PState.stowing, ticks_stowing := TICKS_FOR_OVERHEAD }, plane, self.overhead_bags)
        else ({ plan0 with state := PState.looking_bin }, plane, self.overhead_bags)
      else ({ plan0 with state := PState.move_to_seat }, plane, self.overhead_bags)
  | PState.stowing =>
    if self.ticks_stowing > 0 then
      let nt := self.ticks_stowing - 1
      if nt = 0 then
        ({ plan0 with ticks_stowing := 0, state := PState.move_to_seat },
         plane.place_bags_in_bin self.y.toNat self.overhead_bags, 0)
      else ({ plan0 with ticks_stowing := nt }, plane, self.overhead_bags)
    else (plan0, plane, self.overhead_bags)
  | PState.looking_bin =>
    if self.y < (plane.num_rows : Int) - 1 then
      let next_y := self.y + 1
      match find_passenger_at next_y AISLE_COL passengers_in_aisle with
      | none =>
        if plane.can_stow_bag next_y.toNat self.overhead_bags then
          ({ plan0 with y := next_y, state := PState.stowing, ticks_stowing := TICKS_FOR_OVERHEAD },
           plane, self.overhead_bags)
        else ({ plan0 with y := next_y }, plane, self.overhead_bags)
      | some _ =>
        if leaving_map.contains (next_y, AISLE_COL) then
          if plane.can_stow_bag next_y.toNat self.overhead_bags then
            ({ plan0 with y := next_y, state := PState.stowing, ticks_stowing := TICKS_FOR_OVERHEAD },
             plane, self.overhead_bags)
          else ({ plan0 with y := next_y }, plane, self.overhead_bags)
        else (plan0, plane, self.overhead_bags)
    else ({ plan0 with state := PState.move_to_seat }, plane, self.overhead_bags)
  | PState.move_to_seat =>
    if self.delay_counter > 0 then
      ({ plan0 with delay_counter := self.delay_counter - 1 }, plane, self.overhead_bags)
    else if self.x = self.target_col then
      ({ plan0 with state := PState.done }, plane, self.overhead_bags)
    else
      let next_x := if self.x < self.target_col then self.x + 1 else self.x - 1
      match find_passenger_at self.y next_x passengers_in_aisle with
      | some occ =>
        if occ.state = PState.done then
          if self.passed_occupants.contains occ.queue_index = false then
            ({ plan0 with delay_counter := 1,
                          passed_occupants := occ.queue_index :: self.passed_occupants },
             plane, self.overhead_bags)
          else if leaving_map.contains (self.y, next_x) then
            ({ plan0 with x := next_x }, plane, self.overhead_bags)
          else (plan0, plane, self.overhead_bags)
        else if leaving_map.contains (self.y, next_x) then
          ({ plan0 with x := next_x }, plane, self.overhead_bags)
        else (plan0, plane, self.overhead_bags)
      | none => ({ plan0 with x := next_x }, plane, self.overhead_bags)

/-- Look a passenger up by its (unique) queue index — the embedding's
stand-in for Python object identity. -/
def findQI (ps : List Passenger) (qi : Nat) : Option Passenger :=
  ps.find? (fun p => p.queue_index = qi)

/-- Update the passenger with the given queue index. -/
def updateByQI (ps : List Passenger) (qi : Nat) (f : Passenger → Passenger) : List Passenger :=
  ps.map (fun p => if p.queue_index = qi then f p else p)

/-- Write a plan's six fields into a passenger, as the apply loop at the
end of `Simulation.do_substep` does. -/
def applyPlan (p : Passenger) (pl : Plan) : Passenger :=
  { p with x := pl.x
           y := pl.y
           state := pl.state
           ticks_stowing := pl.ticks_stowing
           delay_counter := pl.delay_counter
           passed_occupants := pl.passed_occupants }

/-- One proposal pass of `Simulation.do_substep` (the draft pass and the
final pass are both this loop).  It walks the sorted candidates in
order, calling `propose_action` for each; because `propose_action` can
mutate the plane and the caller's `overhead_bags` (stow commit), those
effects are threaded through the rest of the pass exactly as the shared
Python objects carry them. -/
def run_pass (aisle : List Nat) (leaving : List (Int × Nat)) :
    List Nat → Plane → List Passenger → List (Nat × Plan) × Plane × List Passenger
  | [], plane, ps => ([], plane, ps)
  | qi :: rest, plane, ps =>
    match findQI ps qi with
    | none => run_pass aisle leaving rest plane ps
    | some self =>
      let view := aisle.filterMap (fun q => findQI ps q)
      let r := self.propose_action plane view leaving
      let ps' := updateByQI ps qi (fun p => { p with overhead_bags := r.2.2 })
      let rec_r := run_pass aisle leaving rest r.2.1 ps'
      ((qi, r.1) :: rec_r.1, rec_r.2.1, rec_r.2.2)

/-- Insert into a queue-index-sorted list keeping earlier elements first
on ties (`sorted` in Python is stable). -/
def insertQI (a : Nat) : List Nat → List Nat
  | [] => [a]
  | b :: l => if a ≤ b then a :: b :: l else b :: insertQI a l

/-- `sorted(candidates, key=queue_index)` from `do_substep`. -/
def sortQI : List Nat → List Nat
  | [] => []
  | a :: l => insertQI a (sortQI l)

/-- The smallest queue index of a (nonempty) group of final plans —
`sorted(p_list, key=queue_index)[0]` in `do_substep`. -/
def minKey : List (Nat × Plan) → Nat
  | [] => 0
  | a :: rest => rest.foldl (fun m b => min m b.1) a.1

/-- Resolution of one final plan against the whole set of final plans
(`do_substep` lines 643-659): a sole proposer for its target cell keeps
its plan; in a contested group the passenger with the smallest queue
index keeps its plan and every other contender is forced to a plan
copying its own current fields. -/
def resolve_one (fps : List (Nat × Plan)) (ps : List Passenger) (qp : Nat × Plan) : Nat × Plan :=
  let group := fps.filter (fun ip => ip.2.y = qp.2.y ∧ ip.2.x = qp.2.x)
  if group.length = 1 then qp
  else if qp.1 = minKey group then qp
  else
    match findQI ps qp.1 with
    | some loser => (qp.1, plan_of loser)
    | none => qp

/-- Destination-collision resolution of `do_substep`: every final plan
is resolved against the full set of final plans. -/
def resolve_updates (fps : List (Nat × Plan)) (ps : List Passenger) : List (Nat × Plan) :=
  fps.map (resolve_one fps ps)

/-- The apply loop of `do_substep`: every candidate gets the six fields
of its resolved update written back; passengers without an update are
untouched. -/
def apply_updates (ps : List Passenger) (upds : List (Nat × Plan)) : List Passenger :=
  ps.map (fun p =>
    match upds.find? (fun u => u.1 = p.queue_index) with
    | some u => applyPlan p u.2
    | none => p)

/-- The whole-simulation state: the plane, the full ordered passenger
list (`passengers_queue`), the active list (`passengers_in_aisle`,
stored as queue indices in admission order), the tick counter and the
frozen final tick count. -/
structure SimState where
  plane : Plane
  passengers : List Passenger
  aisle : List Nat
  tick_count : Nat
  final_tick_count : Option Nat
deriving DecidableEq, Repr

/-- The candidates of a sub-step: active passengers that have not moved
this tick, sorted by queue index. -/
def substep_candidates (s : SimState) (moved : List Nat) : List Nat :=
  sortQI (s.aisle.filter (fun qi => ¬ moved.contains qi))

/-- The draft (intent) pass: every candidate proposes with an empty
yield map. -/
def substep_draft (s : SimState) (moved : List Nat) :
    List (Nat × Plan) × Plane × List Passenger :=
  run_pass s.aisle [] (substep_candidates s moved) s.plane s.passengers

/-- The yield map: the current cell of every candidate whose draft plan
changes its position. -/
def substep_leaving (s : SimState) (moved : List Nat) : List (Int × Nat) :=
  let d := substep_draft s moved
  d.1.filterMap (fun qp =>
    match findQI d.2.2 qp.1 with
    | some p => if (qp.2.y, qp.2.x) ≠ (p.y, p.x) then some (p.y, p.x) else none
    | none => none)

/-- The final pass: every candidate proposes again with the populated
yield map, starting from the plane and passenger fields the draft pass
left behind. -/
def substep_final (s : SimState) (moved : List Nat) :
    List (Nat × Plan) × Plane × List Passenger :=
  let d := substep_draft s moved
  run_pass s.aisle (substep_leaving s moved) (substep_candidates s moved) d.2.1 d.2.2

/-- `Simulation.do_substep`: draft pass, yield map, final pass,
collision resolution, atomic apply.  Returns the new state, the grown
moved-this-tick list and whether any position changed. -/
def do_substep (s : SimState) (moved : List Nat) : SimState × List Nat × Bool :=
  let f := substep_final s moved
  let upds := resolve_updates f.1 f.2.2
  let ps' := apply_updates f.2.2 upds
  let movedNew := upds.filterMap (fun qp =>
    match findQI f.2.2 qp.1 with
    | some p => if (qp.2.y, qp.2.x) ≠ (p.y, p.x) then some qp.1 else none
    | none => none)
  ({ s with plane := f.2.1, passengers := ps' }, moved ++ movedNew, !movedNew.isEmpty)

/-- The sub-step loop of `update_in_parallel`: up to `fuel` (= 10)
sub-steps, stopping as soon as one moves nobody. -/
def substep_loop : Nat → SimState → List Nat → SimState
  | 0, s, _ => s
  | fuel + 1, s, moved =>
    let r := do_substep s moved
    if r.2.2 then substep_loop fuel r.1 r.2.1 else r.1

/-- The admission loop of `update_in_parallel`: append every passenger
that is not done and not yet active, in queue order. -/
def activate_pending (ps : List Passenger) (aisle : List Nat) : List Nat :=
  aisle ++ (ps.filter (fun p => p.state ≠ PState.done ∧ ¬ aisle.contains p.queue_index)).map
    (fun p => p.queue_index)

/-- `Simulation.update_in_parallel`: freeze the final tick count once
everyone is done, otherwise count the tick; add newly eligible
passengers; run up to 10 sub-steps; drop done passengers from the
active list. -/
def update_in_parallel (s : SimState) : SimState :=
  let all_done := s.passengers.all (fun p => p.state = PState.done)
  let ftc := if all_done ∧ s.final_tick_count = none then some s.tick_count else s.final_tick_count
  let tc := if ¬ all_done then s.tick_count + 1 else s.tick_count
  let s1 : SimState := { s with tick_count := tc, final_tick_count := ftc,
                                aisle := activate_pending s.passengers s.aisle }
  let s2 := substep_loop 10 s1 []
  { s2 with aisle := s2.aisle.filter (fun qi =>
      match findQI s2.passengers qi with
      | some p => p.state ≠ PState.done
      | none => false) }

/-- Run `n` ticks. -/
def run_ticks : Nat → SimState → SimState
  | 0, s => s
  | n + 1, s => run_ticks n (update_in_parallel s)

/-- A fresh simulation state for a given plane size and passenger list
(the state right after `Simulation.__init__`). -/
def SimState.make (num_rows : Nat) (ps : List Passenger) : SimState :=
  { plane := Plane.make num_rows
    passengers := ps
    aisle := []
    tick_count := 0
    final_tick_count := none }

/-- Stable insertion into a key-sorted list of `(sort key, passenger)`
pairs: on equal keys the inserted element, which comes earlier in the
original list, stays first — Python's `list.sort` is stable. -/
def insertKeyed (a : Nat × Passenger) : List (Nat × Passenger) → List (Nat × Passenger)
  | [] => [a]
  | b :: l => if a.1 ≤ b.1 then a :: b :: l else b :: insertKeyed a l

/-- Stable sort by sort key, modelling `passenger_arr.sort(key=lambda x: x[0]+x[1])`. -/
def sortKeyed : List (Nat × Passenger) → List (Nat × Passenger)
  | [] => []
  | a :: l => insertKeyed a (sortKeyed l)

/-- The keyed array built by the `late_immediate = True` branch of
`apply_late_arrivals`: each passenger is paired with its sort key
`queue_index + extra`, where `extra` is the randomly drawn unique delay
of a late passenger and 0 for a punctual one.  The random draws are the
explicit `delays` argument (one entry per passenger). -/
def immediate_arr (base : List Passenger) (delays : List Nat) : List (Nat × Passenger) :=
  (base.zip delays).map (fun pd => (pd.1.queue_index + pd.2, pd.1))

/-- The sorted keyed array of the immediate branch. -/
def immediate_sort (base : List Passenger) (delays : List Nat) : List (Nat × Passenger) :=
  sortKeyed (immediate_arr base delays)

/-- The `late_immediate = True` branch of `apply_late_arrivals`: sort by
`(original index + offset)` and renumber the queue indices `0..n-1`. -/
def apply_late_arrivals_immediate (base : List Passenger) (delays : List Nat) : List Passenger :=
  (immediate_sort base delays).enum.map (fun ip => { ip.2.2 with queue_index := ip.1 })

/-- The sort keys of the immediate branch, in queue order — the claim
about key collisions is about this list. -/
def immediate_keys (base : List Passenger) (delays : List Nat) : List Nat :=
  (immediate_arr base delays).map (fun kp => kp.1)

/-!
Concrete fixtures used by the counterexamples and witnesses below.
-/

/-- Two passengers for one row: queue head seated at column 1, the
follower seated at column 0 and therefore walking past the first one's
seat. -/
def pA : Passenger := Passenger.make 0 'B' 1 0 false

/-- See `pA`. -/
def pB : Passenger := Passenger.make 0 'A' 1 1 false

/-- Initial state of the two-passenger, one-row boarding run. -/
def c1_init : SimState := SimState.make 1 [pA, pB]

/-- A passenger mid-simulation: stowing at row 1 with the full
countdown of `TICKS_FOR_OVERHEAD = 2` ticks ahead of it. -/
def c4p0 : Passenger :=
  { Passenger.make 1 'A' 2 0 false with y := 1, state := PState.stowing, ticks_stowing := 2 }

/-- A queued passenger behind `c4p0`. -/
def c4p1 : Passenger := Passenger.make 1 'B' 1 1 false

/-- State at a tick boundary: `c4p0` stowing with countdown 2, `c4p1`
still outside. -/
def c4_init : SimState := { SimState.make 2 [c4p0, c4p1] with aisle := [0] }

/-- A seat-bound passenger one column past the aisle whose next step
toward its target column is the aisle cell (2,3). -/
def c2M : Passenger :=
  { Passenger.make 2 'B' 1 0 false with y := 2, x := 4, state := PState.move_to_seat }

/-- A walking passenger whose next aisle step is the same cell (2,3). -/
def c2L : Passenger :=
  { Passenger.make 5 'A' 1 1 false with y := 1, x := 3, state := PState.walking }

/-- A sub-step state in which `c2M` and `c2L` contest cell (2,3). -/
def c2_state : SimState := { SimState.make 6 [c2M, c2L] with aisle := [0, 1] }

/-- A stowing passenger whose countdown is about to reach zero. -/
def c3self : Passenger :=
  { Passenger.make 0 'A' 2 0 false with y := 0, state := PState.stowing, ticks_stowing := 1 }

/-- A seated (done) passenger at the non-aisle cell (0,2). -/
def c5done : Passenger :=
  { Passenger.make 0 'C' 1 5 false with y := 0, x := 2, state := PState.done }

/-- A seat-bound passenger at the aisle cell (0,3) heading for column 1,
whose next cell (0,2) is occupied by the seated `c5done`. -/
def c5mover : Passenger :=
  { Passenger.make 0 'B' 1 0 false with y := 0, state := PState.move_to_seat }

/-- A seated (done) passenger at the aisle cell (0,3). -/
def c5wdone : Passenger :=
  { Passenger.make 0 'A' 1 5 false with y := 0, x := 3, state := PState.done }

/-- A seat-bound passenger at (0,4) heading for column 1, whose next
cell is the aisle cell occupied by the seated `c5wdone`. -/
def c5wmover : Passenger :=
  { Passenger.make 0 'B' 1 0 false with y := 0, x := 4, target_col := 1, state := PState.move_to_seat }

/-- A late passenger with original queue index 0. -/
def c6p0 : Passenger := Passenger.make 0 'A' 1 0 true

/-- A punctual passenger with original queue index 1. -/
def c6p1 : Passenger := Passenger.make 0 'B' 1 1 false

/-- A one-row plane whose bins are completely full. -/
def fullPlane : Plane := { num_rows := 1, overhead := [[2, 2, 2, 0, 2, 2, 2]] }

/-- A seat-bound passenger at the aisle entry cell about to step to (0,2). -/
def c1wp0 : Passenger :=
  { Passenger.make 0 'B' 1 0 false with y := 0, state := PState.move_to_seat }

/-- A queued passenger that can enter (0,3) once `c1wp0` vacates it. -/
def c1wp1 : Passenger := Passenger.make 0 'A' 1 1 false

/-- A sub-step state in which both passengers move (one through the
yield map) and land on distinct cells. -/
def c1w_state : SimState := { SimState.make 1 [c1wp0, c1wp1] with aisle := [0, 1] }

/-!
Definitions used only by the proofs below.
-/

/-- Remaining free capacity of a row over a list of columns (aisle
excluded); the bookkeeping quantity behind `place_bags_in_bin`. -/
def freeCapOn : List Nat → List Nat → Nat
  | [], _ => 0
  | c :: rest, r =>
    (if c = AISLE_COL then 0 else OVERHEAD_BIN_CAPACITY - r.getD c 0) + freeCapOn rest r

/-- Sum of the row entries over an explicit list of columns. -/
def sumColsOn (cs : List Nat) (r : List Nat) : Nat :=
  (cs.map (fun c => r.getD c 0)).sum

/-- A passenger with its `overhead_bags` field erased: a proposal pass
can change nothing else of a passenger record. -/
def core (p : Passenger) : Passenger := { p with overhead_bags := 0 }

/-- Every bin cell of the plane is within the per-seat capacity. -/
def AllLe2 (pl : Plane) : Prop :=
  ∀ row ∈ pl.overhead, ∀ x ∈ row, x ≤ OVERHEAD_BIN_CAPACITY

/-!
Helper lemmas: list reads and writes.
-/

theorem getD_set_self {α : Type} (l : List α) (i : Nat) (v d : α) (h : i < l.length) :
    (l.set i v).getD i d = v := by
  simp [List.getD_eq_getElem?_getD, List.getElem?_set_self, h]

theorem getD_set_ne {α : Type} (l : List α) (i j : Nat) (v d : α) (h : i ≠ j) :
    (l.set i v).getD j d = l.getD j d := by
  simp [List.getD_eq_getElem?_getD, List.getElem?_set_ne h]

theorem getD_mem_of_lt {α : Type} (l : List α) (i : Nat) (d : α) (h : i < l.length) :
    l.getD i d ∈ l := by
  rw [List.getD_eq_getElem?_getD, List.getElem?_eq_getElem h]
  exact List.getElem_mem h

theorem getD_eq_default {α : Type} (l : List α) (i : Nat) (d : α) (h : l.length ≤ i) :
    l.getD i d = d := by
  rw [List.getD_eq_getElem?_getD, List.getElem?_eq_none h]
  rfl

theorem getD_le_of_all (l : List Nat) (k i : Nat) (h : ∀ x ∈ l, x ≤ k) :
    l.getD i 0 ≤ k := by
  by_cases hi : i < l.length
  · exact h _ (getD_mem_of_lt l i 0 hi)
  · rw [getD_eq_default l i 0 (Nat.le_of_not_lt hi)]
    exact Nat.zero_le k

theorem rowTotal_eq (r : List Nat) :
    rowTotal r = r.getD 0 0 + (r.getD 1 0 + (r.getD 2 0 + (r.getD 4 0 + (r.getD 5 0 + (r.getD 6 0 + 0))))) := rfl

theorem range_COLS : List.range COLS = [0, 1, 2, 3, 4, 5, 6] := by decide

/-!
Helper lemmas: the bin filling loop.
-/

theorem sumColsOn_set_not_mem (cs : List Nat) (r : List Nat) (c v : Nat) (hc : c ∉ cs) :
    sumColsOn cs (r.set c v) = sumColsOn cs r := by
  induction cs with
  | nil => rfl
  | cons b t ih =>
    have hbc : c ≠ b := fun h => hc (h ▸ List.mem_cons_self b t)
    have hct : c ∉ t := fun h => hc (List.mem_cons_of_mem b h)
    simp only [sumColsOn, List.map_cons, List.sum_cons] at *
    rw [getD_set_ne r c b v 0 hbc, ih hct]

theorem sumColsOn_set_mem (cs : List Nat) (r : List Nat) (c v : Nat) (hnd : cs.Nodup)
    (hc : c ∈ cs) (hcl : c < r.length) :
    sumColsOn cs (r.set c v) + r.getD c 0 = sumColsOn cs r + v := by
  induction cs with
  | nil => cases hc
  | cons b t ih =>
    simp only [sumColsOn, List.map_cons, List.sum_cons] at *
    rcases List.mem_cons.mp hc with hcb | hct
    · subst hcb
      rw [getD_set_self r c v 0 hcl]
      have h2 := sumColsOn_set_not_mem t r c v (List.nodup_cons.mp hnd).1
      simp only [sumColsOn] at h2
      omega
    · have hcb : c ≠ b := by
        intro h
        exact (List.nodup_cons.mp hnd).1 (h ▸ hct)
      rw [getD_set_ne r c b v 0 hcb]
      have := ih (List.nodup_cons.mp hnd).2 hct
      omega

theorem rowTotal_eq_sumColsOn (r : List Nat) : rowTotal r = sumColsOn [0, 1, 2, 4, 5, 6] r := rfl

theorem rowTotal_set (r : List Nat) (c v : Nat) (hc7 : c < COLS) (hca : c ≠ AISLE_COL)
    (hcl : c < r.length) :
    rowTotal (r.set c v) + r.getD c 0 = rowTotal r + v := by
  rw [rowTotal_eq_sumColsOn, rowTotal_eq_sumColsOn]
  refine sumColsOn_set_mem [0, 1, 2, 4, 5, 6] r c v (by decide) ?_ hcl
  have hCOLS : COLS = 7 := rfl
  have hAC : AISLE_COL = 3 := rfl
  rw [hCOLS] at hc7
  rw [hAC] at hca
  simp only [List.mem_cons, List.not_mem_nil, or_false]
  omega

theorem freeCapOn_set_not_mem (cs : List Nat) (r : List Nat) (c v : Nat) (hc : c ∉ cs) :
    freeCapOn cs (r.set c v) = freeCapOn cs r := by
  induction cs with
  | nil => rfl
  | cons b t ih =>
    have hbc : c ≠ b := fun h => hc (h ▸ List.mem_cons_self b t)
    have hct : c ∉ t := fun h => hc (List.mem_cons_of_mem b h)
    simp only [freeCapOn]
    rw [getD_set_ne r c b v 0 hbc, ih hct]

theorem placeInRow_leftover_zero (cs : List Nat) :
    ∀ (r : List Nat) (bl : Nat), cs.Nodup → bl ≤ freeCapOn cs r →
      (placeInRow cs r bl).2 = 0 := by
  induction cs with
  | nil =>
    intro r bl _ hle
    simp only [freeCapOn] at hle
    simp only [placeInRow]
    omega
  | cons c t ih =>
    intro r bl hnd hle
    have hnd' := (List.nodup_cons.mp hnd).2
    have hcnt := (List.nodup_cons.mp hnd).1
    by_cases hc : c = AISLE_COL
    · simp only [placeInRow, if_pos hc]
      apply ih r bl hnd'
      simp only [freeCapOn, if_pos hc] at hle
      omega
    · simp only [placeInRow, if_neg hc]
      simp only [freeCapOn, if_neg hc] at hle
      by_cases hadd : OVERHEAD_BIN_CAPACITY - r.getD c 0 > 0
      · rw [if_pos hadd]
        by_cases hbl : bl - min (OVERHEAD_BIN_CAPACITY - r.getD c 0) bl = 0
        · rw [if_pos hbl]
          exact hbl
        · rw [if_neg hbl]
          apply ih _ _ hnd'
          rw [freeCapOn_set_not_mem t r c _ hcnt]
          omega
      · rw [if_neg hadd]
        apply ih r bl hnd'
        omega

theorem placeInRow_conserves (cs : List Nat) :
    ∀ (r : List Nat) (bl : Nat), cs.Nodup → (∀ c ∈ cs, c < r.length ∧ c < COLS) →
      rowTotal (placeInRow cs r bl).1 + (placeInRow cs r bl).2 = rowTotal r + bl := by
  induction cs with
  | nil =>
    intro r bl _ _
    simp only [placeInRow]
  | cons c t ih =>
    intro r bl hnd hcs
    have hnd' := (List.nodup_cons.mp hnd).2
    have hcnt := (List.nodup_cons.mp hnd).1
    have hc0 := hcs c (List.mem_cons_self c t)
    have hcs' : ∀ c' ∈ t, c' < r.length ∧ c' < COLS :=
      fun c' h => hcs c' (List.mem_cons_of_mem c h)
    by_cases hc : c = AISLE_COL
    · simp only [placeInRow, if_pos hc]
      exact ih r bl hnd' hcs'
    · simp only [placeInRow, if_neg hc]
      by_cases hadd : OVERHEAD_BIN_CAPACITY - r.getD c 0 > 0
      · rw [if_pos hadd]
        have hput : min (OVERHEAD_BIN_CAPACITY - r.getD c 0) bl ≤ bl := Nat.min_le_right _ _
        have hset := rowTotal_set r c (r.getD c 0 + min (OVERHEAD_BIN_CAPACITY - r.getD c 0) bl)
          hc0.2 hc hc0.1
        by_cases hbl : bl - min (OVERHEAD_BIN_CAPACITY - r.getD c 0) bl = 0
        · rw [if_pos hbl]
          simp only
          omega
        · rw [if_neg hbl]
          have hcs'' : ∀ c' ∈ t,
              c' < (r.set c (r.getD c 0 + min (OVERHEAD_BIN_CAPACITY - r.getD c 0) bl)).length ∧
              c' < COLS := by
            intro c' h
            rw [List.length_set]
            exact hcs' c' h
          have hrec := ih _ (bl - min (OVERHEAD_BIN_CAPACITY - r.getD c 0) bl) hnd' hcs''
          omega
      · rw [if_neg hadd]
        exact ih r bl hnd' hcs'

theorem placeInRow_all_le (cs : List Nat) :
    ∀ (r : List Nat) (bl : Nat), (∀ x ∈ r, x ≤ OVERHEAD_BIN_CAPACITY) →
      ∀ x ∈ (placeInRow cs r bl).1, x ≤ OVERHEAD_BIN_CAPACITY := by
  induction cs with
  | nil =>
    intro r bl h
    simpa only [placeInRow] using h
  | cons c t ih =>
    intro r bl h
    by_cases hc : c = AISLE_COL
    · simp only [placeInRow, if_pos hc]
      exact ih r bl h
    · simp only [placeInRow, if_neg hc]
      by_cases hadd : OVERHEAD_BIN_CAPACITY - r.getD c 0 > 0
      · rw [if_pos hadd]
        have hset : ∀ x ∈ r.set c (r.getD c 0 + min (OVERHEAD_BIN_CAPACITY - r.getD c 0) bl),
            x ≤ OVERHEAD_BIN_CAPACITY := by
          intro x hx
          rcases List.mem_or_eq_of_mem_set hx with hmem | heq
          · exact h x hmem
          · have : min (OVERHEAD_BIN_CAPACITY - r.getD c 0) bl ≤ OVERHEAD_BIN_CAPACITY - r.getD c 0 :=
              Nat.min_le_left _ _
            omega
        by_cases hbl : bl - min (OVERHEAD_BIN_CAPACITY - r.getD c 0) bl = 0
        · rw [if_pos hbl]
          exact hset
        · rw [if_neg hbl]
          exact ih _ _ hset
      · rw [if_neg hadd]
        exact ih r bl h

theorem freeCapOn_range_add_rowTotal (r : List Nat)
    (h : ∀ x ∈ r, x ≤ OVERHEAD_BIN_CAPACITY) :
    freeCapOn (List.range COLS) r + rowTotal r = 6 * OVERHEAD_BIN_CAPACITY := by
  have h0 := getD_le_of_all r OVERHEAD_BIN_CAPACITY 0 h
  have h1 := getD_le_of_all r OVERHEAD_BIN_CAPACITY 1 h
  have h2 := getD_le_of_all r OVERHEAD_BIN_CAPACITY 2 h
  have h4 := getD_le_of_all r OVERHEAD_BIN_CAPACITY 4 h
  have h5 := getD_le_of_all r OVERHEAD_BIN_CAPACITY 5 h
  have h6 := getD_le_of_all r OVERHEAD_BIN_CAPACITY 6 h
  have hcap : OVERHEAD_BIN_CAPACITY = 2 := rfl
  rw [hcap] at h0 h1 h2 h4 h5 h6
  have e : freeCapOn (List.range COLS) r =
      (2 - r.getD 0 0) + ((2 - r.getD 1 0) + ((2 - r.getD 2 0) +
      (0 + ((2 - r.getD 4 0) + ((2 - r.getD 5 0) + ((2 - r.getD 6 0) + 0)))))) := rfl
  rw [e, rowTotal_eq]
  show _ = 12
  omega

theorem getD_row_all_le (pl : Plane) (h : AllLe2 pl) (row : Nat) :
    ∀ x ∈ pl.overhead.getD row [], x ≤ OVERHEAD_BIN_CAPACITY := by
  by_cases hr : row < pl.overhead.length
  · exact h _ (getD_mem_of_lt pl.overhead row [] hr)
  · rw [getD_eq_default pl.overhead row [] (Nat.le_of_not_lt hr)]
    intro x hx
    cases hx

theorem place_bags_all_le (pl : Plane) (row bags : Nat) (h : AllLe2 pl) :
    AllLe2 (pl.place_bags_in_bin row bags) := by
  intro r hr
  simp only [Plane.place_bags_in_bin] at hr
  rcases List.mem_or_eq_of_mem_set hr with hmem | heq
  · exact h r hmem
  · subst heq
    exact placeInRow_all_le (List.range COLS) _ bags (getD_row_all_le pl h row)

theorem make_all_le (n : Nat) : AllLe2 (Plane.make n) := by
  intro r hr x hx
  simp only [Plane.make, List.mem_replicate] at hr
  rw [hr.2] at hx
  simp only [List.mem_replicate] at hx
  rw [hx.2]
  exact Nat.zero_le _

theorem applyCalls_all_le (calls : List (Nat × Nat)) :
    ∀ pl : Plane, AllLe2 pl → AllLe2 (applyCalls pl calls) := by
  induction calls with
  | nil => intro pl h; exact h
  | cons c t ih =>
    intro pl h
    exact ih _ (place_bags_all_le pl c.1 c.2 h)

/-!
Helper lemmas: `find_passenger_at`.
-/

theorem find_done_eq_aisle (row : Int) (col : Nat) (ps : List Passenger) (occ : Passenger)
    (hfind : find_passenger_at row col ps = some occ) (hdone : occ.state = PState.done) :
    col = AISLE_COL := by
  induction ps with
  | nil => cases hfind
  | cons p t ih =>
    simp only [find_passenger_at] at hfind
    by_cases hpos : p.y = row ∧ p.x = col
    · rw [if_pos hpos] at hfind
      by_cases hst : p.state ≠ PState.done
      · rw [if_pos hst] at hfind
        cases hfind
        exact absurd hdone hst
      · rw [if_neg hst] at hfind
        by_cases hcol : col = AISLE_COL
        · exact hcol
        · rw [if_neg hcol] at hfind
          exact ih hfind
    · rw [if_neg hpos] at hfind
      exact ih hfind

theorem find_none_of_all_done (row : Int) (col : Nat) (ps : List Passenger)
    (hcol : col ≠ AISLE_COL)
    (hall : ∀ p ∈ ps, p.y = row → p.x = col → p.state = PState.done) :
    find_passenger_at row col ps = none := by
  induction ps with
  | nil => rfl
  | cons p t ih =>
    have hall' : ∀ q ∈ t, q.y = row → q.x = col → q.state = PState.done :=
      fun q hq => hall q (List.mem_cons_of_mem p hq)
    simp only [find_passenger_at]
    by_cases hpos : p.y = row ∧ p.x = col
    · rw [if_pos hpos]
      have hdone := hall p (List.mem_cons_self p t) hpos.1 hpos.2
      rw [if_neg (by simpa using hdone), if_neg hcol]
      exact ih hall'
    · rw [if_neg hpos]
      exact ih hall'

/-!
Helper lemmas: proposal passes and the apply step.
-/

theorem findQI_map (g : Passenger → Passenger) (hg : ∀ p, (g p).queue_index = p.queue_index)
    (ps : List Passenger) (qi : Nat) :
    findQI (ps.map g) qi = (findQI ps qi).map g := by
  induction ps with
  | nil => rfl
  | cons p t ih =>
    by_cases h : p.queue_index = qi
    · simp only [findQI, List.map_cons]
      rw [List.find?_cons_of_pos _ (by simp [hg p, h]), List.find?_cons_of_pos _ (by simp [h])]
      rfl
    · simp only [findQI, List.map_cons]
      rw [List.find?_cons_of_neg _ (by simp [hg p, h]), List.find?_cons_of_neg _ (by simp [h])]
      exact ih

theorem map_core_map_core (o : Option Passenger) (g : Passenger → Passenger)
    (hg : ∀ p, core (g p) = core p) : (o.map g).map core = o.map core := by
  cases o with
  | none => rfl
  | some p => simp [hg p]

theorem run_pass_core (aisle : List Nat) (leaving : List (Int × Nat)) (cands : List Nat) :
    ∀ (plane : Plane) (ps : List Passenger) (qi : Nat),
      (findQI (run_pass aisle leaving cands plane ps).2.2 qi).map core =
      (findQI ps qi).map core := by
  induction cands with
  | nil => intro plane ps qi; rfl
  | cons qc t ih =>
    intro plane ps qi
    simp only [run_pass]
    cases hfind : findQI ps qc with
    | none =>
      simp only [hfind]
      exact ih plane ps qi
    | some self =>
      simp only [hfind]
      rw [ih]
      rw [updateByQI, findQI_map _ (fun p => by by_cases h : p.queue_index = qc <;> simp [h])]
      exact map_core_map_core _ _ (fun p => by by_cases h : p.queue_index = qc <;> simp [h, core])

theorem substep_final_core (s : SimState) (moved : List Nat) (qi : Nat) :
    (findQI (substep_final s moved).2.2 qi).map core = (findQI s.passengers qi).map core := by
  simp only [substep_final, substep_draft]
  rw [run_pass_core, run_pass_core]

theorem findQI_apply_updates (ps : List Passenger) (upds : List (Nat × Plan)) (qi : Nat) :
    findQI (apply_updates ps upds) qi =
      (findQI ps qi).map (fun p =>
        match upds.find? (fun u => u.1 = p.queue_index) with
        | some u => applyPlan p u.2
        | none => p) := by
  rw [apply_updates]
  exact findQI_map _
    (fun p => by cases h : upds.find? (fun u => u.1 = p.queue_index) <;> simp [h, applyPlan]) ps qi

theorem find?_map_key (h : (Nat × Plan) → (Nat × Plan)) (hk : ∀ a, (h a).1 = a.1)
    (l : List (Nat × Plan)) (k : Nat) :
    (l.map h).find? (fun u => u.1 = k) = (l.find? (fun u => u.1 = k)).map h := by
  induction l with
  | nil => rfl
  | cons a t ih =>
    by_cases hc : a.1 = k
    · rw [List.map_cons, List.find?_cons_of_pos _ (by simp [hk a, hc]),
          List.find?_cons_of_pos _ (by simp [hc])]
      rfl
    · rw [List.map_cons, List.find?_cons_of_neg _ (by simp [hk a, hc]),
          List.find?_cons_of_neg _ (by simp [hc])]
      exact ih

theorem find?_key_of_mem_nodup (l : List (Nat × Plan)) (k : Nat) (v : Plan)
    (hnd : (l.map Prod.fst).Nodup) (hmem : (k, v) ∈ l) :
    l.find? (fun u => u.1 = k) = some (k, v) := by
  induction l with
  | nil => cases hmem
  | cons a t ih =>
    rw [List.map_cons, List.nodup_cons] at hnd
    rcases List.mem_cons.mp hmem with heq | hmem'
    · rw [← heq]
      simp [List.find?]
    · by_cases hc : a.1 = k
      · exfalso
        apply hnd.1
        rw [hc]
        exact List.mem_map_of_mem Prod.fst hmem'
      · simp only [List.find?, decide_eq_false hc]
        exact ih hnd.2 hmem'

theorem applyPlan_plan_of (p : Passenger) : applyPlan p (plan_of p) = p := rfl

theorem length_ne_one_of_two_mem (l : List (Nat × Plan)) (a b : Nat × Plan)
    (ha : a ∈ l) (hb : b ∈ l) (hab : a ≠ b) : l.length ≠ 1 := by
  intro hlen
  rcases List.length_eq_one.mp hlen with ⟨x, hx⟩
  rw [hx] at ha hb
  rw [List.mem_singleton.mp ha, List.mem_singleton.mp hb] at hab
  exact hab rfl

theorem resolve_one_key (fps : List (Nat × Plan)) (ps : List Passenger) (a : Nat × Plan) :
    (resolve_one fps ps a).1 = a.1 := by
  simp only [resolve_one]
  split
  · rfl
  · split
    · rfl
    · cases findQI ps a.1 <;> rfl

theorem resolve_find (fps : List (Nat × Plan)) (ps : List Passenger) (k : Nat) (v : Plan)
    (hnd : (fps.map Prod.fst).Nodup) (hmem : (k, v) ∈ fps) :
    (resolve_updates fps ps).find? (fun u => u.1 = k) = some (resolve_one fps ps (k, v)) := by
  rw [resolve_updates, find?_map_key (resolve_one fps ps) (resolve_one_key fps ps),
      find?_key_of_mem_nodup fps k v hnd hmem]
  rfl

theorem resolve_none (fps : List (Nat × Plan)) (ps : List Passenger) (k : Nat)
    (hnone : fps.find? (fun u => u.1 = k) = none) :
    (resolve_updates fps ps).find? (fun u => u.1 = k) = none := by
  rw [resolve_updates, find?_map_key (resolve_one fps ps) (resolve_one_key fps ps), hnone]
  rfl

theorem do_substep_passenger (s : SimState) (moved : List Nat) (qi : Nat) :
    findQI (do_substep s moved).1.passengers qi =
      (findQI (substep_final s moved).2.2 qi).map (fun p =>
        match (resolve_updates (substep_final s moved).1 (substep_final s moved).2.2).find?
            (fun u => u.1 = p.queue_index) with
        | some u => applyPlan p u.2
        | none => p) := by
  exact findQI_apply_updates _ _ qi

theorem findQI_some_key (ps : List Passenger) (qi : Nat) (p : Passenger)
    (h : findQI ps qi = some p) : p.queue_index = qi := by
  simpa using List.find?_some h

theorem core_y (p q : Passenger) (h : core p = core q) : p.y = q.y := by
  have h2 := congrArg Passenger.y h
  exact h2

theorem core_x (p q : Passenger) (h : core p = core q) : p.x = q.x := by
  have h2 := congrArg Passenger.x h
  exact h2

/-- If a passenger's applied sub-step update changes its position, the
update is its own final proposal, and that proposal was either
uncontested or won its collision group by smallest queue index. -/
theorem substep_mover_wins (s : SimState) (moved : List Nat) (q : Nat)
    (p2 p' : Passenger)
    (hnd : ((substep_final s moved).1.map Prod.fst).Nodup)
    (hp2 : findQI (substep_final s moved).2.2 q = some p2)
    (hp' : findQI (do_substep s moved).1.passengers q = some p')
    (hmov : (p'.y, p'.x) ≠ (p2.y, p2.x)) :
    ∃ pl, (q, pl) ∈ (substep_final s moved).1 ∧ p' = applyPlan p2 pl ∧
      (((substep_final s moved).1.filter
          (fun ip => ip.2.y = pl.y ∧ ip.2.x = pl.x)).length = 1 ∨
        q = minKey ((substep_final s moved).1.filter
          (fun ip => ip.2.y = pl.y ∧ ip.2.x = pl.x))) := by
  have hq2 : p2.queue_index = q := findQI_some_key _ _ _ hp2
  have h1 := do_substep_passenger s moved q
  rw [hp2, hp'] at h1
  simp only [Option.map] at h1
  have h1' := Option.some.inj h1
  rw [hq2] at h1'
  cases hfe : (substep_final s moved).1.find? (fun u => u.1 = q) with
  | none =>
    rw [resolve_none _ _ q hfe] at h1'
    exact absurd (by rw [h1']) hmov
  | some e =>
    have he_mem : e ∈ (substep_final s moved).1 := List.mem_of_find?_eq_some hfe
    have he_key : e.1 = q := by simpa using List.find?_some hfe
    have he_pair : (q, e.2) = e := by
      rw [← he_key]
    have hmem2 : (q, e.2) ∈ (substep_final s moved).1 := he_pair ▸ he_mem
    have hres := resolve_find _ (substep_final s moved).2.2 q e.2 hnd hmem2
    rw [hres] at h1'
    simp only [resolve_one] at h1'
    by_cases hlen : ((substep_final s moved).1.filter
        (fun ip => ip.2.y = e.2.y ∧ ip.2.x = e.2.x)).length = 1
    · rw [if_pos hlen] at h1'
      exact ⟨e.2, hmem2, h1', Or.inl hlen⟩
    · rw [if_neg hlen] at h1'
      by_cases hmin : q = minKey ((substep_final s moved).1.filter
          (fun ip => ip.2.y = e.2.y ∧ ip.2.x = e.2.x))
      · rw [if_pos hmin] at h1'
        exact ⟨e.2, hmem2, h1', Or.inr hmin⟩
      · rw [if_neg hmin, hp2] at h1'
        rw [applyPlan_plan_of] at h1'
        exact absurd (by rw [h1']) hmov

/-!
Claim theorems.
-/

/-- C1 counterexample: the claim that at sub-step and tick boundaries no
two agents share a cell — with the sole exception of a done agent at an
aisle-column cell — is false.  After 6 ticks of a two-passenger, one-row
run, the seated (done) passenger 0 and the still-moving passenger 1 both
occupy the non-aisle cell (0,1) at a tick boundary: `find_passenger_at`
makes a done agent at a seat column invisible, so a mover walks onto its
cell. -/
theorem tick_boundary_co_occupancy :
    (findQI (run_ticks 6 c1_init).passengers 0).map (fun p => (p.y, p.x, p.state)) =
      some ((0 : Int), (1 : Nat), PState.done) ∧
    (findQI (run_ticks 6 c1_init).passengers 1).map (fun p => (p.y, p.x, p.state)) =
      some ((0 : Int), (1 : Nat), PState.move_to_seat) ∧
    (1 : Nat) ≠ AISLE_COL := by decide

/-- C1 (amended): what the conflict-resolution protocol does guarantee is
that two agents that both change position in the same sub-step always end
the sub-step on distinct cells; co-occupancy only ever arises between a
mover and an agent that kept its position — in particular a seated (done)
agent at a non-aisle column, which is passable (invisible to
`find_passenger_at`), while a done agent at the aisle column is a hard
block. -/
theorem substep_movers_distinct (s : SimState) (moved : List Nat) (qi qj : Nat)
    (pi0 pj0 pi' pj' : Passenger)
    (hne : qi ≠ qj)
    (hnd : ((substep_final s moved).1.map Prod.fst).Nodup)
    (hpi0 : findQI s.passengers qi = some pi0)
    (hpj0 : findQI s.passengers qj = some pj0)
    (hpi' : findQI (do_substep s moved).1.passengers qi = some pi')
    (hpj' : findQI (do_substep s moved).1.passengers qj = some pj')
    (hmovi : (pi'.y, pi'.x) ≠ (pi0.y, pi0.x))
    (hmovj : (pj'.y, pj'.x) ≠ (pj0.y, pj0.x)) :
    (pi'.y, pi'.x) ≠ (pj'.y, pj'.x) := by
  have hci := substep_final_core s moved qi
  rw [hpi0] at hci
  cases hpi2m : findQI (substep_final s moved).2.2 qi with
  | none => rw [hpi2m] at hci; cases hci
  | some pi2 =>
  rw [hpi2m] at hci
  simp only [Option.map] at hci
  have hcorei := Option.some.inj hci
  have hcj := substep_final_core s moved qj
  rw [hpj0] at hcj
  cases hpj2m : findQI (substep_final s moved).2.2 qj with
  | none => rw [hpj2m] at hcj; cases hcj
  | some pj2 =>
  rw [hpj2m] at hcj
  simp only [Option.map] at hcj
  have hcorej := Option.some.inj hcj
  have hmovi2 : (pi'.y, pi'.x) ≠ (pi2.y, pi2.x) := by
    rw [core_y pi2 pi0 hcorei, core_x pi2 pi0 hcorei]
    exact hmovi
  have hmovj2 : (pj'.y, pj'.x) ≠ (pj2.y, pj2.x) := by
    rw [core_y pj2 pj0 hcorej, core_x pj2 pj0 hcorej]
    exact hmovj
  obtain ⟨pli, hmemi, heqi, hPi⟩ := substep_mover_wins s moved qi pi2 pi' hnd hpi2m hpi' hmovi2
  obtain ⟨plj, hmemj, heqj, hPj⟩ := substep_mover_wins s moved qj pj2 pj' hnd hpj2m hpj' hmovj2
  intro hcontra
  have hpli : pi'.y = pli.y ∧ pi'.x = pli.x := by rw [heqi]; exact ⟨rfl, rfl⟩
  have hplj : pj'.y = plj.y ∧ pj'.x = plj.x := by rw [heqj]; exact ⟨rfl, rfl⟩
  have hyx : pli.y = plj.y ∧ pli.x = plj.x := by
    have h1 := congrArg Prod.fst hcontra
    have h2 := congrArg Prod.snd hcontra
    simp only at h1 h2
    constructor
    · rw [← hpli.1, ← hplj.1]
      exact h1
    · rw [← hpli.2, ← hplj.2]
      exact h2
  simp only [hyx.1, hyx.2] at hPi
  have hgmi : (qi, pli) ∈ (substep_final s moved).1.filter
      (fun ip => ip.2.y = plj.y ∧ ip.2.x = plj.x) :=
    List.mem_filter.mpr ⟨hmemi, by simp [hyx.1, hyx.2]⟩
  have hgmj : (qj, plj) ∈ (substep_final s moved).1.filter
      (fun ip => ip.2.y = plj.y ∧ ip.2.x = plj.x) :=
    List.mem_filter.mpr ⟨hmemj, by simp⟩
  have hlen := length_ne_one_of_two_mem _ _ _ hgmi hgmj
    (fun h => hne (congrArg Prod.fst h))
  rcases hPi with h1 | h1
  · exact hlen h1
  rcases hPj with h2 | h2
  · exact hlen h2
  exact hne (h1.trans h2.symm)

/-- Witness for the amended C1 theorem at a concrete sub-step in which
both passengers move: they end on distinct cells (0,2) and (0,3). -/
theorem substep_movers_distinct_witness :
    ((({ c1wp0 with x := 2 } : Passenger).y, ({ c1wp0 with x := 2 } : Passenger).x) ≠
      ((({ c1wp1 with y := 0, state := PState.walking } : Passenger)).y,
       (({ c1wp1 with y := 0, state := PState.walking } : Passenger)).x)) :=
  substep_movers_distinct c1w_state [] 0 1 c1wp0 c1wp1
    { c1wp0 with x := 2 } { c1wp1 with y := 0, state := PState.walking }
    (by decide) (by decide) (by decide) (by decide) (by decide) (by decide)
    (by decide) (by decide)

/-- C2: in a sub-step, when two (or more) final proposals target the same
cell, the contender with the smallest queue index has its proposal
applied, and every other contender keeps its position, state, stow
countdown, delay countdown and negotiated-occupants set exactly as they
were at the start of the sub-step — its own proposal, countdown
decrements included, is discarded. -/
theorem substep_collision_loser_holds (s : SimState) (moved : List Nat)
    (qi qj : Nat) (plani planj : Plan) (pj0 pi2 pj2 pi' pj' : Passenger)
    (hne : qi ≠ qj)
    (hnd : ((substep_final s moved).1.map Prod.fst).Nodup)
    (hmi : (qi, plani) ∈ (substep_final s moved).1)
    (hmj : (qj, planj) ∈ (substep_final s moved).1)
    (hposy : planj.y = plani.y) (hposx : planj.x = plani.x)
    (hwin : qi = minKey ((substep_final s moved).1.filter
        (fun ip => ip.2.y = plani.y ∧ ip.2.x = plani.x)))
    (hpj0 : findQI s.passengers qj = some pj0)
    (hpi2 : findQI (substep_final s moved).2.2 qi = some pi2)
    (hpj2 : findQI (substep_final s moved).2.2 qj = some pj2)
    (hpi' : findQI (do_substep s moved).1.passengers qi = some pi')
    (hpj' : findQI (do_substep s moved).1.passengers qj = some pj') :
    pi' = applyPlan pi2 plani ∧ pj' = pj2 ∧
    pj'.x = pj0.x ∧ pj'.y = pj0.y ∧ pj'.state = pj0.state ∧
    pj'.ticks_stowing = pj0.ticks_stowing ∧ pj'.delay_counter = pj0.delay_counter ∧
    pj'.passed_occupants = pj0.passed_occupants := by
  have hq_i : pi2.queue_index = qi := findQI_some_key _ _ _ hpi2
  have hq_j : pj2.queue_index = qj := findQI_some_key _ _ _ hpj2
  have hgm_i : (qi, plani) ∈ (substep_final s moved).1.filter
      (fun ip => ip.2.y = plani.y ∧ ip.2.x = plani.x) :=
    List.mem_filter.mpr ⟨hmi, by simp⟩
  have hgm_j : (qj, planj) ∈ (substep_final s moved).1.filter
      (fun ip => ip.2.y = plani.y ∧ ip.2.x = plani.x) :=
    List.mem_filter.mpr ⟨hmj, by simp [hposy, hposx]⟩
  have hlen := length_ne_one_of_two_mem _ _ _ hgm_i hgm_j
    (fun h => hne (congrArg Prod.fst h))
  have hres_i : resolve_one (substep_final s moved).1 (substep_final s moved).2.2 (qi, plani) =
      (qi, plani) := by
    simp only [resolve_one]
    rw [if_neg hlen, if_pos hwin]
  have hres_j : resolve_one (substep_final s moved).1 (substep_final s moved).2.2 (qj, planj) =
      (qj, plan_of pj2) := by
    simp only [resolve_one, hposy, hposx]
    rw [if_neg hlen, if_neg (fun h => hne (hwin.trans h.symm)), hpj2]
  have hwin_eq : pi' = applyPlan pi2 plani := by
    have h1 := do_substep_passenger s moved qi
    rw [hpi2, hpi'] at h1
    simp only [Option.map] at h1
    have h1' := Option.some.inj h1
    rw [hq_i, resolve_find _ _ qi plani hnd hmi, hres_i] at h1'
    exact h1'
  have hlose_eq : pj' = pj2 := by
    have h1 := do_substep_passenger s moved qj
    rw [hpj2, hpj'] at h1
    simp only [Option.map] at h1
    have h1' := Option.some.inj h1
    rw [hq_j, resolve_find _ _ qj planj hnd hmj, hres_j] at h1'
    rw [h1']
    exact applyPlan_plan_of pj2
  have hcore : core pj2 = core pj0 := by
    have h2 := substep_final_core s moved qj
    rw [hpj2, hpj0] at h2
    simp only [Option.map] at h2
    exact Option.some.inj h2
  refine ⟨hwin_eq, hlose_eq, ?_, ?_, ?_, ?_, ?_, ?_⟩ <;> rw [hlose_eq]
  · exact core_x pj2 pj0 hcore
  · exact core_y pj2 pj0 hcore
  · have h3 := congrArg Passenger.state hcore
    exact h3
  · have h3 := congrArg Passenger.ticks_stowing hcore
    exact h3
  · have h3 := congrArg Passenger.delay_counter hcore
    exact h3
  · have h3 := congrArg Passenger.passed_occupants hcore
    exact h3

/-- Witness for C2 at the concrete contested sub-step: passengers 0 and 1
both finally propose cell (2,3); the winner 0 is applied its proposal and
the loser 1 is left exactly as it was. -/
theorem substep_collision_loser_holds_witness :
    ({ c2M with x := 3 } : Passenger) =
      applyPlan c2M { x := 3, y := 2, state := PState.move_to_seat, ticks_stowing := 0,
                      delay_counter := 0, passed_occupants := [] } ∧
    c2L = c2L ∧
    c2L.x = c2L.x ∧ c2L.y = c2L.y ∧ c2L.state = c2L.state ∧
    c2L.ticks_stowing = c2L.ticks_stowing ∧ c2L.delay_counter = c2L.delay_counter ∧
    c2L.passed_occupants = c2L.passed_occupants :=
  substep_collision_loser_holds c2_state [] 0 1
    { x := 3, y := 2, state := PState.move_to_seat, ticks_stowing := 0,
      delay_counter := 0, passed_occupants := [] }
    { x := 3, y := 2, state := PState.walking, ticks_stowing := 0,
      delay_counter := 0, passed_occupants := [] }
    c2L c2M c2L ({ c2M with x := 3 }) c2L
    (by decide) (by decide) (by decide) (by decide) (by decide) (by decide)
    (by decide) (by decide) (by decide) (by decide) (by decide) (by decide)

/-- C3: evidence that `propose_action` is not effect-free.  For a stowing
passenger whose countdown step reaches zero, the proposal call itself
commits the bags — it returns a plane whose bins have changed and a
zeroed `overhead_bags` field for the agent — during the intent pass,
before the Scheduler has applied anything, contradicting the claim (and
the method's own docstring, which says the call does not change `self`). -/
theorem propose_action_mutates_shared_state :
    c3self.state = PState.stowing ∧ c3self.ticks_stowing = 1 ∧ c3self.overhead_bags = 1 ∧
    (c3self.propose_action (Plane.make 1) [c3self] []).2.1 ≠ Plane.make 1 ∧
    (c3self.propose_action (Plane.make 1) [c3self] []).2.1 =
      (Plane.make 1).place_bags_in_bin 0 1 ∧
    (c3self.propose_action (Plane.make 1) [c3self] []).2.2 = 0 := by decide

/-- C4: the stow countdown is decremented once per applied sub-step, not
once per tick.  Starting a tick with passenger 0 stowing at countdown 2
(and passenger 1 entering the plane, which keeps the sub-step loop
alive), a single `update_in_parallel` call drives the countdown from 2
to 0, commits the bag to the bins of row 1 and moves the agent to
`move_to_seat` — one tick instead of the claimed two. -/
theorem stow_completes_within_one_tick :
    (findQI c4_init.passengers 0).map (fun p => (p.state, p.ticks_stowing)) =
      some (PState.stowing, 2) ∧
    (update_in_parallel c4_init).tick_count = c4_init.tick_count + 1 ∧
    (findQI (update_in_parallel c4_init).passengers 0).map
        (fun p => (p.state, p.ticks_stowing)) =
      some (PState.move_to_seat, 0) ∧
    rowTotal ((update_in_parallel c4_init).plane.overhead.getD 1 []) = 1 := by decide

/-- C9: `find_passenger_at` returns a done passenger only at the aisle
column; and a non-aisle cell all of whose occupants are done reads as
unoccupied through `is_tile_occupied`. -/
theorem find_passenger_done_visibility (row : Int) (col : Nat) (ps : List Passenger) :
    (∀ occ, find_passenger_at row col ps = some occ → occ.state = PState.done →
      col = AISLE_COL) ∧
    (col ≠ AISLE_COL → (∀ p ∈ ps, p.y = row → p.x = col → p.state = PState.done) →
      is_tile_occupied row col ps = false) := by
  constructor
  · exact fun occ h hd => find_done_eq_aisle row col ps occ h hd
  · intro hcol hall
    rw [is_tile_occupied, find_none_of_all_done row col ps hcol hall]
    rfl

/-- Witness for C9: the seated passenger at the non-aisle cell (0,2) is
invisible — the tile reads as unoccupied. -/
theorem find_passenger_done_visibility_witness :
    is_tile_occupied 0 2 [c5done] = false :=
  (find_passenger_done_visibility 0 2 [c5done]).2 (by decide) (by decide)

/-- C10: starting from the all-zero bins, after any sequence of
`place_bags_in_bin` calls — checked or not — every per-column bin count
stays within `OVERHEAD_BIN_CAPACITY` and every row total stays within
`6 * OVERHEAD_BIN_CAPACITY`; overflowing bags are dropped, never stored
beyond capacity. -/
theorem bins_stay_bounded (n : Nat) (calls : List (Nat × Nat)) (r c : Nat) :
    ((applyCalls (Plane.make n) calls).overhead.getD r []).getD c 0 ≤ OVERHEAD_BIN_CAPACITY ∧
    rowTotal ((applyCalls (Plane.make n) calls).overhead.getD r []) ≤
      6 * OVERHEAD_BIN_CAPACITY := by
  have hall := applyCalls_all_le calls _ (make_all_le n)
  have hrow := getD_row_all_le _ hall r
  constructor
  · exact getD_le_of_all _ _ _ hrow
  · have h0 := getD_le_of_all _ OVERHEAD_BIN_CAPACITY 0 hrow
    have h1 := getD_le_of_all _ OVERHEAD_BIN_CAPACITY 1 hrow
    have h2 := getD_le_of_all _ OVERHEAD_BIN_CAPACITY 2 hrow
    have h4 := getD_le_of_all _ OVERHEAD_BIN_CAPACITY 4 hrow
    have h5 := getD_le_of_all _ OVERHEAD_BIN_CAPACITY 5 hrow
    have h6 := getD_le_of_all _ OVERHEAD_BIN_CAPACITY 6 hrow
    have hcap : OVERHEAD_BIN_CAPACITY = 2 := rfl
    rw [hcap] at h0 h1 h2 h4 h5 h6
    rw [rowTotal_eq]
    show _ ≤ 12
    omega

/-- C7 counterexample: calling `place_bags_in_bin` on a full row — a call
no successful `can_stow_bag` check could precede — is not surfaced as any
failure: the call returns normally, the bins are unchanged, and the
overflowing bag is silently dropped (leftover 1 in the filling loop). -/
theorem place_bags_overflow_silent :
    fullPlane.can_stow_bag 0 1 = false ∧
    fullPlane.place_bags_in_bin 0 1 = fullPlane ∧
    (placeInRow (List.range COLS) (fullPlane.overhead.getD 0 []) 1).2 = 1 := by decide

/-- C7 (amended): there is no assertion — an over-capacity call silently
drops the excess (see the counterexample) — but under the contract's
precondition (a row of the right shape, cells within capacity, and a
successful `can_stow_bag` check) the filling loop places every bag:
no leftover, and the row total grows by exactly `bags`. -/
theorem place_bags_under_capacity (pl : Plane) (row bags : Nat)
    (hrow : row < pl.overhead.length)
    (hlen : (pl.overhead.getD row []).length = COLS)
    (hcells : ∀ x ∈ pl.overhead.getD row [], x ≤ OVERHEAD_BIN_CAPACITY)
    (hcap : pl.can_stow_bag row bags = true) :
    (placeInRow (List.range COLS) (pl.overhead.getD row []) bags).2 = 0 ∧
    rowTotal ((pl.place_bags_in_bin row bags).overhead.getD row []) =
      rowTotal (pl.overhead.getD row []) + bags := by
  have hcapP : rowTotal (pl.overhead.getD row []) + bags ≤ 6 * OVERHEAD_BIN_CAPACITY := by
    have := of_decide_eq_true hcap
    exact this
  have hfree := freeCapOn_range_add_rowTotal (pl.overhead.getD row []) hcells
  have hble : bags ≤ freeCapOn (List.range COLS) (pl.overhead.getD row []) := by omega
  have hzero := placeInRow_leftover_zero (List.range COLS) (pl.overhead.getD row []) bags
    (List.nodup_range COLS) hble
  have hcons := placeInRow_conserves (List.range COLS) (pl.overhead.getD row []) bags
    (List.nodup_range COLS)
    (fun c hc => ⟨by rw [hlen]; exact List.mem_range.mp hc, List.mem_range.mp hc⟩)
  refine ⟨hzero, ?_⟩
  have hget : (pl.place_bags_in_bin row bags).overhead.getD row [] =
      (placeInRow (List.range COLS) (pl.overhead.getD row []) bags).1 := by
    rw [Plane.place_bags_in_bin]
    exact getD_set_self pl.overhead row _ [] hrow
  rw [hget]
  omega

/-- Witness for the amended C7 theorem: stowing 2 bags into an empty
one-row plane leaves no leftover and raises the row total to 2. -/
theorem place_bags_under_capacity_witness :
    (placeInRow (List.range COLS) ((Plane.make 1).overhead.getD 0 []) 2).2 = 0 ∧
    rowTotal (((Plane.make 1).place_bags_in_bin 0 2).overhead.getD 0 []) =
      rowTotal ((Plane.make 1).overhead.getD 0 []) + 2 :=
  place_bags_under_capacity (Plane.make 1) 0 2 (by decide) (by decide) (by decide) (by decide)

/-!
Helper lemmas: the stable key sort used by the immediate late-arrival mode.
-/

theorem mem_insertKeyed (a x : Nat × Passenger) (l : List (Nat × Passenger)) :
    x ∈ insertKeyed a l ↔ x = a ∨ x ∈ l := by
  induction l with
  | nil => simp [insertKeyed]
  | cons b t ih =>
    simp only [insertKeyed]
    by_cases hab : a.1 ≤ b.1
    · rw [if_pos hab]
      simp [List.mem_cons]
    · rw [if_neg hab]
      simp only [List.mem_cons, ih]
      tauto

theorem insertKeyed_perm (a : Nat × Passenger) (l : List (Nat × Passenger)) :
    (insertKeyed a l).Perm (a :: l) := by
  induction l with
  | nil => exact List.Perm.refl _
  | cons b t ih =>
    simp only [insertKeyed]
    by_cases hab : a.1 ≤ b.1
    · rw [if_pos hab]
    · rw [if_neg hab]
      exact (ih.cons b).trans (List.Perm.swap a b t)

theorem sortKeyed_perm (l : List (Nat × Passenger)) : (sortKeyed l).Perm l := by
  induction l with
  | nil => exact List.Perm.refl _
  | cons a t ih =>
    exact (insertKeyed_perm a (sortKeyed t)).trans (ih.cons a)

theorem pairwise_insertKeyed (a : Nat × Passenger) (l : List (Nat × Passenger))
    (h : l.Pairwise (fun u v => u.1 ≤ v.1)) :
    (insertKeyed a l).Pairwise (fun u v => u.1 ≤ v.1) := by
  induction l with
  | nil => simp [insertKeyed]
  | cons b t ih =>
    rw [List.pairwise_cons] at h
    simp only [insertKeyed]
    by_cases hab : a.1 ≤ b.1
    · rw [if_pos hab, List.pairwise_cons]
      refine ⟨?_, List.pairwise_cons.mpr h⟩
      intro x hx
      rcases List.mem_cons.mp hx with hxb | hxt
      · rw [hxb]
        exact hab
      · exact le_trans hab (h.1 x hxt)
    · rw [if_neg hab, List.pairwise_cons]
      refine ⟨?_, ih h.2⟩
      intro x hx
      rcases (mem_insertKeyed a x t).mp hx with hxa | hxt
      · rw [hxa]
        omega
      · exact h.1 x hxt

theorem pairwise_sortKeyed (l : List (Nat × Passenger)) :
    (sortKeyed l).Pairwise (fun u v => u.1 ≤ v.1) := by
  induction l with
  | nil => simp [sortKeyed]
  | cons a t ih => exact pairwise_insertKeyed a (sortKeyed t) ih

/-- C6 counterexample: in immediate mode the delays drawn by the code are
unique only among late passengers.  With the late passenger `c6p0`
(index 0, drawn delay 1) and the punctual `c6p1` (index 1, delay 0) —
a draw the code can make — the sort keys are [1, 1]: two agents collide
on sort key, refuting the claimed pairwise distinctness. -/
theorem immediate_sort_keys_collide :
    c6p0.is_late = true ∧ c6p1.is_late = false ∧
    immediate_keys [c6p0, c6p1] [1, 0] = [1, 1] ∧
    ¬ (immediate_keys [c6p0, c6p1] [1, 0]).Pairwise (fun a b => a ≠ b) := by decide

/-- C6 (amended): immediate mode pairs every passenger with the sort key
`original index + offset` (offsets unique among the late passengers
only), stably sorts by that key — equal keys, which can occur, keep their
original relative order — and renumbers the queue indices 0..n-1. -/
theorem apply_late_immediate_sorts_and_renumbers (base : List Passenger) (delays : List Nat)
    (hlen : delays.length = base.length) :
    (apply_late_arrivals_immediate base delays).map (fun p => p.queue_index) =
      List.range base.length ∧
    (immediate_sort base delays).Pairwise (fun u v => u.1 ≤ v.1) ∧
    (immediate_sort base delays).Perm (immediate_arr base delays) := by
  refine ⟨?_, pairwise_sortKeyed _, sortKeyed_perm _⟩
  rw [apply_late_arrivals_immediate, List.map_map]
  have hcomp : ((fun p => p.queue_index) ∘
      (fun ip : Nat × (Nat × Passenger) => ({ ip.2.2 with queue_index := ip.1 } : Passenger))) =
      Prod.fst := by
    funext ip
    rfl
  rw [hcomp, List.enum_map_fst]
  congr 1
  rw [immediate_sort, (sortKeyed_perm _).length_eq, immediate_arr, List.length_map,
      List.length_zip, hlen]
  exact Nat.min_self _

/-- Witness for the amended C6 theorem at the concrete two-passenger
instance with colliding keys. -/
theorem apply_late_immediate_witness :
    (apply_late_arrivals_immediate [c6p0, c6p1] [1, 0]).map (fun p => p.queue_index) =
      List.range 2 ∧
    (immediate_sort [c6p0, c6p1] [1, 0]).Pairwise (fun u v => u.1 ≤ v.1) ∧
    (immediate_sort [c6p0, c6p1] [1, 0]).Perm (immediate_arr [c6p0, c6p1] [1, 0]) :=
  apply_late_immediate_sorts_and_renumbers [c6p0, c6p1] [1, 0] (by decide)

/-- C5 counterexample: a seated (done) agent on the next cell toward the
target column does not trigger the wait-and-negotiate behaviour the
claim describes.  `c5done` is done at the non-aisle cell (0,2);
`find_passenger_at` skips it, so the mover at (0,3) simply moves onto
the occupied cell with its delay counter still 0 and its negotiated set
still empty. -/
theorem move_to_seat_ignores_done_neighbor :
    c5done.state = PState.done ∧ c5done.y = 0 ∧ c5done.x = 2 ∧ (2 : Nat) ≠ AISLE_COL ∧
    c5mover.state = PState.move_to_seat ∧ c5mover.y = 0 ∧ c5mover.x = 3 ∧
    c5mover.target_col = 1 ∧ c5mover.delay_counter = 0 ∧
    (c5mover.propose_action (Plane.make 1) [c5mover, c5done] []).1 =
      { plan_of c5mover with x := 2 } := by decide

/-- C5 (amended): in `move_to_seat` with no pending wait and the target
column not yet reached, the occupancy of the next cell is what
`find_passenger_at` reports — and a done occupant is reported only at
the aisle column, so a seated agent on a seat-column cell is passable
and the mover steps onto its cell.  When a done occupant is reported
and not yet negotiated, the agent holds, sets a 1-tick wait and records
the occupant; when the occupant is negotiated or not done, the agent
moves exactly when the cell is in the yield map; and the call leaves
the plane and the agent's bag count untouched. -/
theorem move_to_seat_step (self : Passenger) (plane : Plane)
    (aisle : List Passenger) (leaving : List (Int × Nat))
    (hstate : self.state = PState.move_to_seat)
    (hdelay : self.delay_counter = 0)
    (hne : self.x ≠ self.target_col) :
    (self.propose_action plane aisle leaving).2.1 = plane ∧
    (self.propose_action plane aisle leaving).2.2 = self.overhead_bags ∧
    (∀ occ, find_passenger_at self.y
        (if self.x < self.target_col then self.x + 1 else self.x - 1) aisle = some occ →
      occ.state = PState.done →
      (if self.x < self.target_col then self.x + 1 else self.x - 1) = AISLE_COL) ∧
    (find_passenger_at self.y
        (if self.x < self.target_col then self.x + 1 else self.x - 1) aisle = none →
      (self.propose_action plane aisle leaving).1 =
        { plan_of self with x := if self.x < self.target_col then self.x + 1 else self.x - 1 }) ∧
    (∀ occ, find_passenger_at self.y
        (if self.x < self.target_col then self.x + 1 else self.x - 1) aisle = some occ →
      occ.state = PState.done →
      self.passed_occupants.contains occ.queue_index = false →
      (self.propose_action plane aisle leaving).1 =
        { plan_of self with delay_counter := 1,
                            passed_occupants := occ.queue_index :: self.passed_occupants }) ∧
    (∀ occ, find_passenger_at self.y
        (if self.x < self.target_col then self.x + 1 else self.x - 1) aisle = some occ →
      (occ.state ≠ PState.done ∨ self.passed_occupants.contains occ.queue_index = true) →
      (self.propose_action plane aisle leaving).1 =
        (if leaving.contains (self.y, if self.x < self.target_col then self.x + 1 else self.x - 1) then
          { plan_of self with x := if self.x < self.target_col then self.x + 1 else self.x - 1 }
        else plan_of self)) := by
  have hlt : ¬ self.delay_counter > 0 := by omega
  have hredn : find_passenger_at self.y
      (if self.x < self.target_col then self.x + 1 else self.x - 1) aisle = none →
      self.propose_action plane aisle leaving =
        ({ plan_of self with x := if self.x < self.target_col then self.x + 1 else self.x - 1 },
         plane, self.overhead_bags) := by
    intro h
    simp only [Passenger.propose_action, hstate]
    rw [if_neg hlt, if_neg hne, h]
  have hreds : ∀ occ, find_passenger_at self.y
      (if self.x < self.target_col then self.x + 1 else self.x - 1) aisle = some occ →
      self.propose_action plane aisle leaving =
        (if occ.state = PState.done then
          if self.passed_occupants.contains occ.queue_index = false then
            ({ plan_of self with
                delay_counter := 1,
                passed_occupants := occ.queue_index :: self.passed_occupants },
             plane, self.overhead_bags)
          else if leaving.contains (self.y,
              if self.x < self.target_col then self.x + 1 else self.x - 1) then
            ({ plan_of self with x := if self.x < self.target_col then self.x + 1 else self.x - 1 },
             plane, self.overhead_bags)
          else (plan_of self, plane, self.overhead_bags)
        else if leaving.contains (self.y,
            if self.x < self.target_col then self.x + 1 else self.x - 1) then
          ({ plan_of self with x := if self.x < self.target_col then self.x + 1 else self.x - 1 },
           plane, self.overhead_bags)
        else (plan_of self, plane, self.overhead_bags)) := by
    intro occ h
    simp only [Passenger.propose_action, hstate]
    rw [if_neg hlt, if_neg hne, h]
  refine ⟨?_, ?_, fun occ h hd => find_done_eq_aisle _ _ _ _ h hd, ?_, ?_, ?_⟩
  · cases hocc : find_passenger_at self.y
        (if self.x < self.target_col then self.x + 1 else self.x - 1) aisle with
    | none => rw [hredn hocc]
    | some occ =>
      rw [hreds occ hocc]
      split_ifs <;> rfl
  · cases hocc : find_passenger_at self.y
        (if self.x < self.target_col then self.x + 1 else self.x - 1) aisle with
    | none => rw [hredn hocc]
    | some occ =>
      rw [hreds occ hocc]
      split_ifs <;> rfl
  · intro hnone
    rw [hredn hnone]
  · intro occ hocc hd hcont
    rw [hreds occ hocc, if_pos hd, if_pos hcont]
  · intro occ hocc hcond
    rw [hreds occ hocc]
    by_cases hd : occ.state = PState.done
    · have hcont : self.passed_occupants.contains occ.queue_index = true := by
        rcases hcond with h | h
        · exact absurd hd h
        · exact h
      rw [if_pos hd, if_neg (by rw [hcont]; simp)]
      by_cases hl : leaving.contains (self.y,
          if self.x < self.target_col then self.x + 1 else self.x - 1)
      · rw [if_pos hl, if_pos hl]
      · rw [if_neg hl, if_neg hl]
    · rw [if_neg hd]
      by_cases hl : leaving.contains (self.y,
          if self.x < self.target_col then self.x + 1 else self.x - 1)
      · rw [if_pos hl, if_pos hl]
      · rw [if_neg hl, if_neg hl]

/-- Witness for the amended C5 theorem: the only way a mover can face a
done occupant is at the aisle column; there the wait branch does fire
(delay 1, occupant 5 recorded). -/
theorem move_to_seat_step_witness :
    (c5wmover.propose_action (Plane.make 1) [c5wmover, c5wdone] []).1 =
      { plan_of c5wmover with delay_counter := 1, passed_occupants := [5] } := by
  have h := move_to_seat_step c5wmover (Plane.make 1) [c5wmover, c5wdone] []
    (by decide) (by decide) (by decide)
  exact h.2.2.2.2.1 c5wdone (by decide) (by decide) (by decide)
